import Mathlib

/-!
Verification of the gas-station simulator, src/gas_station.cpp.

The program runs M car threads ("Car", ids 1..M) competing for N gas pumps
("GasPump", ids 1..N) through one shared waiting line (MyQueue of int car
ids) and one pool of available pumps (MyQueue of GasPump pointers).  A
controller thread sets up the queues, spawns the cars, sleeps, flips a
shared atomic running flag to false, joins the cars, and tears everything
down, each Metrics destructor printing a usage report line.

Shallow embedding.  MyQueue of T is modelled by the list of its elements,
head first.  The interleaved execution of the car threads and the
controller is a labelled transition system: one atomic step per
mutex-protected queue operation, per read of the shared flag or queue, and
per counter increment, following the statements of the Car worker body,
src/gas_station.cpp lines 117-140, and of main, lines 144-180.  Sleeps
only shape real-time behaviour and are absorbed into the adjacent steps.
The synchronization structure of the queue methods themselves (which of
them lock m_mutex) is embedded separately as lists of micro actions.
-/

namespace GasStation

/-! ## MyQueue, src lines 56-80: the functional contract of the methods -/

namespace MyQueue

/-- Embedding of lines 60-64: push appends the item at the tail of the
underlying std::queue. -/
def push (q : List α) (x : α) : List α := q ++ [x]

/-- Embedding of lines 65-71: pop reads the head element and removes it;
calling it on an empty queue is undefined behaviour of std::queue::front,
modelled as none. -/
def pop (q : List α) : Option (α × List α) :=
  match q with
  | [] => none
  | x :: r => some (x, r)

/-- Embedding of lines 72-75: front returns the head element without
removing it (none models the undefined empty case). -/
def front (q : List α) : Option α := q.head?

/-- Embedding of line 76: empty returns whether size() <= 0. -/
def emptyQ (q : List α) : Bool := decide (q.length ≤ 0)

end MyQueue

/-! ## MyQueue synchronization structure, src lines 60-76

Each method body is embedded as its sequence of micro actions on the
shared object: acquiring and releasing m_mutex, and raw accesses to the
unprotected std::queue m_queue.  A raw access is a write when it mutates
the std::queue. -/

/-- Micro actions a MyQueue method performs on the shared object. -/
inductive MicroAct where
  | lockMutex
  | rawAccess (write : Bool)
  | unlockMutex
deriving DecidableEq

/-- The four methods of MyQueue. -/
inductive QMethod where
  | push
  | pop
  | front
  | emptyQ
deriving DecidableEq

/-- Micro-action sequence of each method body.  push (lines 60-64) and pop
(lines 65-71) declare a std::lock_guard on m_mutex around their accesses;
front (lines 72-75) and empty (line 76) access m_queue with no lock at
all. -/
def body : QMethod → List MicroAct
  | QMethod.push => [MicroAct.lockMutex, MicroAct.rawAccess true, MicroAct.unlockMutex]
  | QMethod.pop => [MicroAct.lockMutex, MicroAct.rawAccess true, MicroAct.unlockMutex]
  | QMethod.front => [MicroAct.rawAccess false]
  | QMethod.emptyQ => [MicroAct.rawAccess false]

/-- Whether the method holds m_mutex around its raw accesses. -/
def acquiresLock (m : QMethod) : Bool := (body m).contains MicroAct.lockMutex

/-- Whether the method mutates the underlying std::queue. -/
def writes (m : QMethod) : Bool := (body m).contains (MicroAct.rawAccess true)

/-- Two concurrent invocations race when at least one mutates the
std::queue and at least one performs its raw access without holding
m_mutex: their accesses are then not ordered by any synchronization, so
the pair is not atomic with respect to each other. -/
def racy (m₁ m₂ : QMethod) : Bool :=
  (writes m₁ || writes m₂) && (!acquiresLock m₁ || !acquiresLock m₂)

/-! ## Metrics teardown report, src lines 82-95 -/

/-- Report line printed by Metrics::PrintStats, line 91 (without the
trailing newline of the printf format string). -/
def statsLine (name : String) (id count : Nat) : String :=
  name ++ " " ++ toString id ++ " filled up " ++ toString count ++ " times"

/-- Embedding of Metrics::~Metrics, line 87: the destructor prints the
stats line only when m_count > 0. -/
def destructorOutput (name : String) (id count : Nat) : List String :=
  if 0 < count then [statsLine name id count] else []

/-- Teardown output of the whole program: main drains and deletes the N
pumps (lines 172-175) and each Car functor is destroyed after its thread
is joined; every Metrics destructor contributes its output.  Pumps carry
ids 1..N and cars ids 1..M (lines 152-154 and 158-160). -/
def teardownReport (N M : Nat) (pumpCount carCount : Nat → Nat) : List String :=
  ((List.range N).map (fun k => destructorOutput "Pump" (k + 1) (pumpCount (k + 1)))).flatten ++
  ((List.range M).map (fun k => destructorOutput "Car" (k + 1) (carCount (k + 1)))).flatten

/-! ## Interleaved small-step semantics of the workers and the controller -/

/-- Pump handle: some id models a valid GasPump pointer, none models
nullptr. -/
abbrev Handle := Option Nat

/-- Control locations inside the body of the Car worker,
Car::operator(), src lines 117-140. -/
inductive Loc where
  | start        -- before line 120, line.push(GetId())
  | loopHead     -- line 123, while (running.load())
  | checkFront   -- line 125, if (line.front() == GetId())
  | pollPumps    -- line 127, while (pumps.empty()) sleep 1 ms
  | popPump      -- line 129, GasPump* myPump = pumps.pop()
  | checkNull    -- line 130, if (myPump == nullptr)
  | popLine      -- line 131, line.pop()
  | service      -- line 132, myPump->PumpGas(): sleep 30 ms then Inc()
  | incSelf      -- line 133, Inc()
  | pushPump     -- line 134, pumps.push(myPump)
  | pushLine     -- line 135, line.push(GetId())
  | stopped      -- the while loop exited normally
  | errorStopped -- returned at line 130 after the nullptr check fired
deriving DecidableEq

/-- Thread-local state of one car: its control location, the local
GasPump pointer myPump, and its Metrics m_count. -/
structure CarState where
  loc : Loc
  myPump : Handle
  count : Nat
deriving DecidableEq

/-- Shared state of the whole program: the atomic running flag, the car
line (list of car ids, head first), the pool of available pumps, each
pump's Metrics m_count (indexed by pump id), and the per-car states
(indexed by car id). -/
structure SysState where
  running : Bool
  line : List Nat
  pumps : List Handle
  pumpCount : Nat → Nat
  cars : Nat → CarState

/-- Labels of the atomic steps; the Nat is the acting car's id. -/
inductive Label where
  | enterLine (i : Nat)
  | checkRun (i : Nat)
  | checkFront (i : Nat)
  | pollPumps (i : Nat)
  | popPump (i : Nat)
  | checkNull (i : Nat)
  | popLine (i : Nat)
  | service (i : Nat)
  | incCount (i : Nat)
  | returnPump (i : Nat)
  | reenterLine (i : Nat)
  | stopFlag
deriving DecidableEq

/-- The car id acting in a step, none for the controller. -/
def labelOwner : Label → Option Nat
  | Label.enterLine i => some i
  | Label.checkRun i => some i
  | Label.checkFront i => some i
  | Label.pollPumps i => some i
  | Label.popPump i => some i
  | Label.checkNull i => some i
  | Label.popLine i => some i
  | Label.service i => some i
  | Label.incCount i => some i
  | Label.returnPump i => some i
  | Label.reenterLine i => some i
  | Label.stopFlag => none

/-- One atomic step of the interleaved execution.  Car steps follow the
statements of Car::operator(), src lines 117-140; the stopFlag step is the
controller's write running = false, line 166.  pops of empty queues have
no transition: they are undefined behaviour of std::queue. -/
inductive Step : SysState → Label → SysState → Prop where
  | enterLine (s : SysState) (i : Nat)
      (h : (s.cars i).loc = Loc.start) :
      Step s (Label.enterLine i)
        { s with line := s.line ++ [i],
                 cars := Function.update s.cars i { s.cars i with loc := Loc.loopHead } }
  | checkRunTrue (s : SysState) (i : Nat)
      (h : (s.cars i).loc = Loc.loopHead) (hr : s.running = true) :
      Step s (Label.checkRun i)
        { s with cars := Function.update s.cars i { s.cars i with loc := Loc.checkFront } }
  | checkRunFalse (s : SysState) (i : Nat)
      (h : (s.cars i).loc = Loc.loopHead) (hr : s.running = false) :
      Step s (Label.checkRun i)
        { s with cars := Function.update s.cars i { s.cars i with loc := Loc.stopped } }
  | checkFrontYes (s : SysState) (i : Nat)
      (h : (s.cars i).loc = Loc.checkFront) (hf : s.line.head? = some i) :
      Step s (Label.checkFront i)
        { s with cars := Function.update s.cars i { s.cars i with loc := Loc.pollPumps } }
  | checkFrontNo (s : SysState) (i : Nat)
      (h : (s.cars i).loc = Loc.checkFront) (hf : s.line.head? ≠ some i) :
      Step s (Label.checkFront i)
        { s with cars := Function.update s.cars i { s.cars i with loc := Loc.loopHead } }
  | pollPumpsBusy (s : SysState) (i : Nat)
      (h : (s.cars i).loc = Loc.pollPumps) (he : s.pumps = []) :
      Step s (Label.pollPumps i) s
  | pollPumpsReady (s : SysState) (i : Nat)
      (h : (s.cars i).loc = Loc.pollPumps) (he : s.pumps ≠ []) :
      Step s (Label.pollPumps i)
        { s with cars := Function.update s.cars i { s.cars i with loc := Loc.popPump } }
  | popPump (s : SysState) (i : Nat) (p : Handle) (rest : List Handle)
      (h : (s.cars i).loc = Loc.popPump) (hp : s.pumps = p :: rest) :
      Step s (Label.popPump i)
        { s with pumps := rest,
                 cars := Function.update s.cars i
                   { loc := Loc.checkNull, myPump := p, count := (s.cars i).count } }
  | checkNullNull (s : SysState) (i : Nat)
      (h : (s.cars i).loc = Loc.checkNull) (hn : (s.cars i).myPump = none) :
      Step s (Label.checkNull i)
        { s with cars := Function.update s.cars i { s.cars i with loc := Loc.errorStopped } }
  | checkNullOk (s : SysState) (i : Nat) (p : Nat)
      (h : (s.cars i).loc = Loc.checkNull) (hn : (s.cars i).myPump = some p) :
      Step s (Label.checkNull i)
        { s with cars := Function.update s.cars i { s.cars i with loc := Loc.popLine } }
  | popLine (s : SysState) (i : Nat) (x : Nat) (rest : List Nat)
      (h : (s.cars i).loc = Loc.popLine) (hl : s.line = x :: rest) :
      Step s (Label.popLine i)
        { s with line := rest,
                 cars := Function.update s.cars i { s.cars i with loc := Loc.service } }
  | service (s : SysState) (i : Nat) (p : Nat)
      (h : (s.cars i).loc = Loc.service) (hp : (s.cars i).myPump = some p) :
      Step s (Label.service i)
        { s with pumpCount := Function.update s.pumpCount p (s.pumpCount p + 1),
                 cars := Function.update s.cars i { s.cars i with loc := Loc.incSelf } }
  | incCount (s : SysState) (i : Nat)
      (h : (s.cars i).loc = Loc.incSelf) :
      Step s (Label.incCount i)
        { s with cars := Function.update s.cars i
                   { s.cars i with loc := Loc.pushPump, count := (s.cars i).count + 1 } }
  | returnPump (s : SysState) (i : Nat)
      (h : (s.cars i).loc = Loc.pushPump) :
      Step s (Label.returnPump i)
        { s with pumps := s.pumps ++ [(s.cars i).myPump],
                 cars := Function.update s.cars i { s.cars i with loc := Loc.pushLine } }
  | reenterLine (s : SysState) (i : Nat)
      (h : (s.cars i).loc = Loc.pushLine) :
      Step s (Label.reenterLine i)
        { s with line := s.line ++ [i],
                 cars := Function.update s.cars i { s.cars i with loc := Loc.loopHead } }
  | stopFlag (s : SysState) (hr : s.running = true) :
      Step s Label.stopFlag { s with running := false }

/-- Execution: a trace of labelled steps. -/
inductive Exec : SysState → List Label → SysState → Prop where
  | nil (s : SysState) : Exec s [] s
  | cons (s : SysState) (l : Label) (s' : SysState) (tr : List Label) (s'' : SysState)
      (hs : Step s l s') (he : Exec s' tr s'') : Exec s (l :: tr) s''

/-- Initial per-car state: about to execute line 120. -/
def initCar : CarState := { loc := Loc.start, myPump := none, count := 0 }

/-- Per-car state of an id that was never spawned; such an id never takes
a step. -/
def doneCar : CarState := { loc := Loc.stopped, myPump := none, count := 0 }

/-- Initial state set up by main, src lines 149-160: running true, empty
car line, pool holding the N pumps with ids 1..N in order, all counters
zero, cars 1..M spawned. -/
def init (M N : Nat) : SysState :=
  { running := true
    line := []
    pumps := (List.range N).map (fun k => some (k + 1))
    pumpCount := fun _ => 0
    cars := fun i => if 1 ≤ i ∧ i ≤ M then initCar else doneCar }

/-- Reachability from the initial state of a run with M cars and N
pumps. -/
def Reachable (M N : Nat) (s : SysState) : Prop :=
  ∃ tr, Exec (init M N) tr s

/-! ## Derived notions used by the invariants -/

open BigOperators

/-- Sum of the pumps' usage counters. -/
def pumpSum (N : Nat) (s : SysState) : Nat := ∑ p in Finset.Icc 1 N, s.pumpCount p

/-- Sum of the cars' usage counters. -/
def carSum (M : Nat) (s : SysState) : Nat := ∑ i in Finset.Icc 1 M, (s.cars i).count

/-- Number of cars that have completed a service but not yet incremented
their own counter (between lines 132 and 133). -/
def inService (M : Nat) (s : SysState) : Nat :=
  ∑ i in Finset.Icc 1 M, (if (s.cars i).loc = Loc.incSelf then 1 else 0)

/-- Locations at which the car's own id is present in the line: from the
push at line 120 (or 135) up to and including the pop at line 131, and the
two terminal locations, which are reached without leaving the line. -/
def inLine : Loc → Bool
  | Loc.start | Loc.service | Loc.incSelf | Loc.pushPump | Loc.pushLine => false
  | _ => true

/-- Locations strictly between a successful front check (line 125) and
the line pop (line 131): the region only the car at the head of the line
can occupy. -/
def inRegion : Loc → Bool
  | Loc.pollPumps | Loc.popPump | Loc.checkNull | Loc.popLine => true
  | _ => false

/-- Locations at which the car holds a pump handle popped from the pool
and not yet pushed back. -/
def holdsPump : Loc → Bool
  | Loc.checkNull | Loc.popLine | Loc.service | Loc.incSelf | Loc.pushPump => true
  | _ => false

/-- Locations at which the car has popped a pump in the current loop
iteration but not yet popped the line (errorStopped keeps the debt
forever: the worker returned between the two pops). -/
def lineDebt : Loc → Bool
  | Loc.checkNull | Loc.popLine | Loc.errorStopped => true
  | _ => false

/-- Numeric form of lineDebt. -/
def debt (c : CarState) : Nat := if lineDebt c.loc then 1 else 0

/-- Inductive invariant of the interleaved system. -/
structure Inv (M N : Nat) (s : SysState) : Prop where
  inert : ∀ i, ¬ (1 ≤ i ∧ i ≤ M) → (s.cars i).loc = Loc.stopped
  lineCount : ∀ i, s.line.count i =
    if 1 ≤ i ∧ i ≤ M ∧ inLine (s.cars i).loc then 1 else 0
  regionUnique : ∀ i j, inRegion (s.cars i).loc → inRegion (s.cars j).loc → i = j
  regionFront : ∀ i, inRegion (s.cars i).loc → s.line.head? = some i
  popPumpSafe : ∀ i, (s.cars i).loc = Loc.popPump → s.pumps ≠ []
  pumpsValid : ∀ h ∈ s.pumps, ∃ p, h = some p ∧ 1 ≤ p ∧ p ≤ N
  heldValid : ∀ i, holdsPump (s.cars i).loc →
    ∃ p, (s.cars i).myPump = some p ∧ 1 ≤ p ∧ p ≤ N
  noError : ∀ i, (s.cars i).loc ≠ Loc.errorStopped
  conservation : pumpSum N s = carSum M s + inService M s

/-- All workers have returned (joined by main, line 169). -/
def AllStopped (M : Nat) (s : SysState) : Prop :=
  ∀ i, 1 ≤ i → i ≤ M → (s.cars i).loc = Loc.stopped ∨ (s.cars i).loc = Loc.errorStopped

/-- An execution in which only car i acts: no controller step and no step
of any other car. -/
def SoloExec (i : Nat) (s : SysState) (tr : List Label) (s' : SysState) : Prop :=
  Exec s tr s' ∧ ∀ l ∈ tr, labelOwner l = some i

/-! ## Concrete demonstration runs

A run with 2 cars and 1 pump in which car 1 acquires the pump and is
servicing, car 2 has reached the front of the line and is polling the
empty pool, and the controller has already cleared the running flag. -/

/-- Stage 0: initial state of the 2-car, 1-pump run. -/
def dA0 : SysState := init 2 1

/-- Stage 1: car 1 executed line 120, line.push(1). -/
def dA1 : SysState :=
  { dA0 with line := dA0.line ++ [1],
             cars := Function.update dA0.cars 1 { dA0.cars 1 with loc := Loc.loopHead } }

/-- Stage 2: car 1 read running = true at line 123. -/
def dA2 : SysState :=
  { dA1 with cars := Function.update dA1.cars 1 { dA1.cars 1 with loc := Loc.checkFront } }

/-- Stage 3: car 1 saw itself at the front at line 125. -/
def dA3 : SysState :=
  { dA2 with cars := Function.update dA2.cars 1 { dA2.cars 1 with loc := Loc.pollPumps } }

/-- Stage 4: car 1 saw a non-empty pool at line 127. -/
def dA4 : SysState :=
  { dA3 with cars := Function.update dA3.cars 1 { dA3.cars 1 with loc := Loc.popPump } }

/-- Stage 5: car 1 popped pump 1 at line 129. -/
def dA5 : SysState :=
  { dA4 with pumps := [],
             cars := Function.update dA4.cars 1
               { loc := Loc.checkNull, myPump := some 1, count := (dA4.cars 1).count } }

/-- Stage 6: car 1 passed the nullptr check at line 130. -/
def dA6 : SysState :=
  { dA5 with cars := Function.update dA5.cars 1 { dA5.cars 1 with loc := Loc.popLine } }

/-- Stage 7: car 1 popped itself off the line at line 131. -/
def dA7 : SysState :=
  { dA6 with line := [],
             cars := Function.update dA6.cars 1 { dA6.cars 1 with loc := Loc.service } }

/-- Stage 8: car 2 executed line 120, line.push(2). -/
def dA8 : SysState :=
  { dA7 with line := dA7.line ++ [2],
             cars := Function.update dA7.cars 2 { dA7.cars 2 with loc := Loc.loopHead } }

/-- Stage 9: car 2 read running = true at line 123. -/
def dA9 : SysState :=
  { dA8 with cars := Function.update dA8.cars 2 { dA8.cars 2 with loc := Loc.checkFront } }

/-- Stage 10: car 2 saw itself at the front at line 125. -/
def dA10 : SysState :=
  { dA9 with cars := Function.update dA9.cars 2 { dA9.cars 2 with loc := Loc.pollPumps } }

/-- Stage 11: the controller cleared the running flag, line 166.  Car 2
is now polling an empty pool with the flag already false. -/
def demoStuck : SysState := { dA10 with running := false }

/-- Labels of the run leading to demoStuck. -/
def demoTraceA : List Label :=
  [Label.enterLine 1, Label.checkRun 1, Label.checkFront 1, Label.pollPumps 1,
   Label.popPump 1, Label.checkNull 1, Label.popLine 1,
   Label.enterLine 2, Label.checkRun 2, Label.checkFront 2, Label.stopFlag]

/-! A run with 1 car and 1 pump that stops before the car ever reaches the
front check: the controller clears the flag first, the car enters the line
and then observes the cleared flag at line 123 and stops. -/

/-- Stage 0 of the stopping run. -/
def dB0 : SysState := init 1 1

/-- Stage 1: the controller cleared the running flag. -/
def dB1 : SysState := { dB0 with running := false }

/-- Stage 2: car 1 executed line 120, line.push(1). -/
def dB2 : SysState :=
  { dB1 with line := dB1.line ++ [1],
             cars := Function.update dB1.cars 1 { dB1.cars 1 with loc := Loc.loopHead } }

/-- Stage 3: car 1 read running = false at line 123 and stopped. -/
def demoStopped : SysState :=
  { dB2 with cars := Function.update dB2.cars 1 { dB2.cars 1 with loc := Loc.stopped } }

/-- Labels of the stopping run. -/
def demoTraceB : List Label := [Label.stopFlag, Label.enterLine 1, Label.checkRun 1]

/-- A state with a nullptr handle in car 1's hand at the line-130 check;
used to exercise the error branch of the worker. -/
def nullState : SysState :=
  { running := true
    line := [1]
    pumps := []
    pumpCount := fun _ => 0
    cars := fun _ => { loc := Loc.checkNull, myPump := none, count := 0 } }

/-! ## The controller's teardown drain loop, main lines 172-175 -/

/-- Embedding of the drain loop the controller runs after joining the
workers: while (!openPumps.empty()) it pops one handle and deletes it.
Each iteration consults empty() and then pop(); the none branch of pop is
the undefined empty-pop case, recorded as false (a precondition
violation), so the function returns true exactly when every pop of the
loop found a non-empty queue. -/
def drainPumps (q : List Handle) : Bool :=
  if MyQueue.emptyQ q then true
  else
    match hp : MyQueue.pop q with
    | none => false
    | some (_, rest) => drainPumps rest
termination_by q.length
decreasing_by
  simp only [MyQueue.pop] at hp
  cases q with
  | nil => cases hp
  | cons a t =>
      cases hp
      simp

/-! ## Helper lemmas -/

/-- Folding push over a list of items appends them in order. -/
theorem foldl_push (l xs : List α) : List.foldl MyQueue.push l xs = l ++ xs := by
  induction xs generalizing l with
  | nil => simp
  | cons x xs ih => simp [MyQueue.push, ih]

/-- Flattening the per-unit destructor outputs keeps exactly the units
with a positive counter, one stats line each, in id order. -/
theorem flatten_destructorOutput (l : List Nat) (name : String) (f : Nat → Nat) :
    ((l.map (fun k => destructorOutput name (k + 1) (f (k + 1)))).flatten) =
      (l.filter (fun k => decide (0 < f (k + 1)))).map
        (fun k => statsLine name (k + 1) (f (k + 1))) := by
  induction l with
  | nil => rfl
  | cons x xs ih =>
      rw [List.map_cons, List.flatten_cons, ih, List.filter_cons]
      by_cases hx : 0 < f (x + 1)
      · simp [destructorOutput, hx]
      · simp [destructorOutput, hx]

/-! ## C3: the FIFO contract of MyQueue -/

/-- C3: MyQueue is a FIFO: push appends the item at the tail; pop, on a
non-empty queue, removes and returns the element pushed earliest among
those still present (the head of the queue built by the earlier pushes);
front returns that same head element without removing it; empty returns
true exactly when the queue holds zero elements. -/
theorem C3_queue_fifo (α : Type) (q : List α) (x : α) (xs : List α) :
    MyQueue.push q x = q ++ [x] ∧
    MyQueue.pop (List.foldl MyQueue.push ([] : List α) (x :: xs)) = some (x, xs) ∧
    MyQueue.front q = Option.map Prod.fst (MyQueue.pop q) ∧
    (MyQueue.emptyQ q = true ↔ q.length = 0) := by
  refine ⟨rfl, ?_, ?_, ?_⟩
  · rw [foldl_push]
    rfl
  · cases q <;> rfl
  · simp [MyQueue.emptyQ, Nat.le_zero]

/-! ## C5: which queue operations are mutually atomic -/

/-- C5 counterexample: a pop racing a front is unsynchronized; the claim
that all four operations are atomic with respect to each other fails,
because front performs its raw access to m_queue without acquiring
m_mutex while pop mutates m_queue. -/
theorem C5_counterexample : racy QMethod.pop QMethod.front = true := by rfl

/-- C5 amended: the mutex-protected operations push and pop are atomic
with respect to each other, but front and empty never acquire m_mutex, so
each of them races with any concurrent mutating operation. -/
theorem C5_amended :
    (∀ m₁ m₂ : QMethod, acquiresLock m₁ = true → acquiresLock m₂ = true →
      racy m₁ m₂ = false) ∧
    acquiresLock QMethod.push = true ∧ acquiresLock QMethod.pop = true ∧
    acquiresLock QMethod.front = false ∧ acquiresLock QMethod.emptyQ = false ∧
    racy QMethod.pop QMethod.front = true ∧ racy QMethod.push QMethod.emptyQ = true := by
  refine ⟨?_, rfl, rfl, rfl, rfl, rfl, rfl⟩
  intro m₁ m₂ h₁ h₂
  cases m₁ <;> cases m₂ <;> simp_all [racy, acquiresLock, writes, body]

/-- C5 witness: push and pop, both lock-protected, do not race. -/
theorem C5_witness : racy QMethod.push QMethod.pop = false :=
  C5_amended.1 QMethod.push QMethod.pop rfl rfl

/-! ## C7: the teardown report -/

/-- C7 counterexample: in a run whose single pump and single car both end
with counter 0 (reachable: the controller can clear the flag before the
car's first front check), the teardown emits no line at all, so the
report does not include every resource and actor: the zero-count pump's
line is missing. -/
theorem C7_counterexample :
    teardownReport 1 1 (fun _ => 0) (fun _ => 0) = [] ∧
    statsLine "Pump" 1 0 ∉ teardownReport 1 1 (fun _ => 0) (fun _ => 0) := by
  refine ⟨rfl, ?_⟩
  intro h
  simp [teardownReport, destructorOutput] at h

/-- C7 amended: the teardown report holds exactly one stats line, of the
form kind id filled up count times, for every resource and every actor
whose final counter is positive, in id order (pumps then cars); units
whose final counter is zero are omitted by the guard in the Metrics
destructor, line 87. -/
theorem C7_report_per_positive_unit (N M : Nat) (pc cc : Nat → Nat) :
    teardownReport N M pc cc =
      ((List.range N).filter (fun k => decide (0 < pc (k + 1)))).map
        (fun k => statsLine "Pump" (k + 1) (pc (k + 1))) ++
      ((List.range M).filter (fun k => decide (0 < cc (k + 1)))).map
        (fun k => statsLine "Car" (k + 1) (cc (k + 1))) := by
  unfold teardownReport
  rw [flatten_destructorOutput, flatten_destructorOutput]

/-! ## C9: the nullptr branch is fatal-and-reported, with no rollback -/

/-- C9: when the popped handle is nullptr at the line-130 check, the
worker's only step is the return: it moves to errorStopped and touches
nothing else: the line (hence its front entry), the pool, the pump
counters and every car counter are unchanged, and no retry step exists
(the branch has exactly the one outcome). -/
theorem C9_null_handle_fatal (s : SysState) (i : Nat)
    (h : (s.cars i).loc = Loc.checkNull) (hn : (s.cars i).myPump = none) :
    (∃ s', Step s (Label.checkNull i) s') ∧
    ∀ s', Step s (Label.checkNull i) s' →
      (s'.cars i).loc = Loc.errorStopped ∧ s'.line = s.line ∧ s'.pumps = s.pumps ∧
      s'.pumpCount = s.pumpCount ∧ (∀ j, (s'.cars j).count = (s.cars j).count) ∧
      (s.line.head? = some i → s'.line.head? = some i) := by
  constructor
  · exact ⟨_, Step.checkNullNull s i h hn⟩
  · intro s' hstep
    cases hstep with
    | checkNullNull s0 h' hn' =>
        refine ⟨by simp [Function.update], rfl, rfl, rfl, ?_, fun hh => hh⟩
        intro j
        by_cases hj : j = i
        · subst hj; simp [Function.update]
        · simp [Function.update, hj]
    | checkNullOk s0 p h' hn' =>
        rw [hn] at hn'
        cases hn'

/-- C9 witness: the error branch at the concrete nullState. -/
theorem C9_witness :
    (∃ s', Step nullState (Label.checkNull 1) s') ∧
    ∀ s', Step nullState (Label.checkNull 1) s' →
      (s'.cars 1).loc = Loc.errorStopped ∧ s'.line = nullState.line ∧
      s'.pumps = nullState.pumps ∧ s'.pumpCount = nullState.pumpCount ∧
      (∀ j, (s'.cars j).count = (nullState.cars j).count) ∧
      (nullState.line.head? = some 1 → s'.line.head? = some 1) :=
  C9_null_handle_fatal nullState 1 rfl rfl

/-! ## Frame and inversion lemmas about Step -/

/-- Updating another car's slot leaves car i's slot unchanged. -/
theorem update_ne (f : Nat → CarState) (j i : Nat) (c : CarState) (h : ¬ j = i) :
    Function.update f j c i = f i :=
  Function.update_noteq (fun e => h e.symm) c f

/-- A step of another car, or of the controller, does not change car i's
local state. -/
theorem step_cars_frame (s : SysState) (l : Label) (s' : SysState) (i : Nat)
    (hstep : Step s l s') (ho : labelOwner l ≠ some i) : s'.cars i = s.cars i := by
  cases hstep <;>
    first
    | rfl
    | (simp only [labelOwner, ne_eq, Option.some.injEq] at ho; exact update_ne _ _ _ _ ho)

/-- From a state whose pool is empty, an acting car that sits at the
inner polling loop of line 127 can only take the self-looping poll step,
whatever the value of the running flag. -/
theorem pollStuck_step (s : SysState) (i : Nat) (hp : s.pumps = [])
    (hl : (s.cars i).loc = Loc.pollPumps) (l : Label) (s' : SysState)
    (ho : labelOwner l = some i) (hstep : Step s l s') : s' = s := by
  cases hstep <;>
    first
    | rfl
    | exact absurd hp (by assumption)
    | (simp only [labelOwner] at ho; exact Option.noConfusion ho)
    | (simp only [labelOwner, Option.some.injEq] at ho; subst ho; simp_all)

/-- A car polling an empty pool makes no progress on its own: any
execution consisting only of its steps leaves the state unchanged. -/
theorem pollStuck_solo (s : SysState) (i : Nat) (hp : s.pumps = [])
    (hl : (s.cars i).loc = Loc.pollPumps) :
    ∀ tr s', SoloExec i s tr s' → s' = s := by
  intro tr
  induction tr with
  | nil =>
      intro s' h
      cases h.1
      rfl
  | cons l tr' ih =>
      intro s' h
      obtain ⟨hex, hown⟩ := h
      cases hex with
      | cons s0 l0 s1 tr0 s2 hs he =>
          have h1 : s1 = s := pollStuck_step s i hp hl l s1 (hown l (by simp)) hs
          subst h1
          exact ih s' ⟨he, fun l' hl' => hown l' (by simp [hl'])⟩

/-! ## The demonstration executions are genuine runs -/

/-- The 2-car, 1-pump run reaching demoStuck is an execution of the
model. -/
theorem demoExecA : Exec (init 2 1) demoTraceA demoStuck := by
  refine Exec.cons _ _ _ _ _ (Step.enterLine dA0 1 rfl) ?_
  refine Exec.cons _ _ _ _ _ (Step.checkRunTrue dA1 1 rfl rfl) ?_
  refine Exec.cons _ _ _ _ _ (Step.checkFrontYes dA2 1 rfl rfl) ?_
  refine Exec.cons _ _ _ _ _ (Step.pollPumpsReady dA3 1 rfl (by decide)) ?_
  refine Exec.cons _ _ _ _ _ (Step.popPump dA4 1 (some 1) [] rfl rfl) ?_
  refine Exec.cons _ _ _ _ _ (Step.checkNullOk dA5 1 1 rfl rfl) ?_
  refine Exec.cons _ _ _ _ _ (Step.popLine dA6 1 1 [] rfl rfl) ?_
  refine Exec.cons _ _ _ _ _ (Step.enterLine dA7 2 rfl) ?_
  refine Exec.cons _ _ _ _ _ (Step.checkRunTrue dA8 2 rfl rfl) ?_
  refine Exec.cons _ _ _ _ _ (Step.checkFrontYes dA9 2 rfl rfl) ?_
  exact Exec.cons _ _ _ _ _ (Step.stopFlag dA10 rfl) (Exec.nil _)

/-- The 1-car, 1-pump stopping run reaching demoStopped is an execution
of the model. -/
theorem demoExecB : Exec (init 1 1) demoTraceB demoStopped := by
  refine Exec.cons _ _ _ _ _ (Step.stopFlag dB0 rfl) ?_
  refine Exec.cons _ _ _ _ _ (Step.enterLine dB1 1 rfl) ?_
  exact Exec.cons _ _ _ _ _ (Step.checkRunFalse dB2 1 rfl rfl) (Exec.nil _)

/-! ## C8: which polling loops re-check the stop flag -/

/-- C8 counterexample: demoStuck is reachable (2 cars, 1 pump), the
running flag is already false, and car 2 sits in the inner
pump-availability loop of line 127 with the pool empty; that loop never
reads the flag, so car 2 on its own never reaches the stopped state: the
claim that every polling wait re-checks the stop condition, making the
worker stop without any further external event, is false. -/
theorem C8_counterexample :
    Reachable 2 1 demoStuck ∧ demoStuck.running = false ∧ demoStuck.pumps = [] ∧
    (demoStuck.cars 2).loc = Loc.pollPumps ∧
    ∀ tr s', SoloExec 2 demoStuck tr s' → (s'.cars 2).loc ≠ Loc.stopped := by
  refine ⟨⟨demoTraceA, demoExecA⟩, rfl, rfl, rfl, ?_⟩
  intro tr s' h hcontra
  have hs : s' = demoStuck := pollStuck_solo demoStuck 2 rfl rfl tr s' h
  rw [hs] at hcontra
  exact absurd hcontra (by decide)

/-- C8 amended: the line-position polling loop passes through the
while-condition of line 123 on every iteration, so a worker there stops
in one step once the flag is false, and a failed front check returns to
that condition; the resource-availability loop of line 127, however,
never reads the flag: with the pool empty its iteration leaves the state
unchanged whatever the flag's value, and it leaves the loop only when a
pump is available. -/
theorem C8_amended :
    (∀ s : SysState, ∀ i : Nat, ∀ s' : SysState,
        (s.cars i).loc = Loc.loopHead → s.running = false →
        Step s (Label.checkRun i) s' → (s'.cars i).loc = Loc.stopped) ∧
    (∀ s : SysState, ∀ i : Nat, ∀ s' : SysState,
        Step s (Label.checkFront i) s' →
        (s'.cars i).loc = Loc.pollPumps ∨ (s'.cars i).loc = Loc.loopHead) ∧
    (∀ s : SysState, ∀ i : Nat, ∀ s' : SysState,
        s.pumps ≠ [] → Step s (Label.pollPumps i) s' →
        (s'.cars i).loc = Loc.popPump) ∧
    (∀ s : SysState, ∀ i : Nat, ∀ s' : SysState,
        s.pumps = [] → Step s (Label.pollPumps i) s' → s' = s) := by
  refine ⟨?_, ?_, ?_, ?_⟩
  · intro s i s' hl hr hstep
    cases hstep with
    | checkRunTrue s0 h hr' => rw [hr] at hr'; cases hr'
    | checkRunFalse s0 h hr' => simp [Function.update]
  · intro s i s' hstep
    cases hstep with
    | checkFrontYes s0 h hf => left; simp [Function.update]
    | checkFrontNo s0 h hf => right; simp [Function.update]
  · intro s i s' hne hstep
    cases hstep with
    | pollPumpsBusy s0 h he => exact absurd he hne
    | pollPumpsReady s0 h he => simp [Function.update]
  · intro s i s' hemp hstep
    cases hstep with
    | pollPumpsBusy s0 h he => rfl
    | pollPumpsReady s0 h he => exact absurd hemp he

/-- C8 witness: at demoStuck, car 2's poll step with the empty pool is a
self-loop. -/
theorem C8_witness : demoStuck = demoStuck :=
  C8_amended.2.2.2 demoStuck 2 demoStuck rfl (Step.pollPumpsBusy demoStuck 2 rfl rfl)

/-! ## C1: in every iteration the pool pop precedes the line pop -/

/-- Trace bookkeeping for C1: along any execution, car i's popPump steps
exceed its popLine steps by exactly its current line-pop debt (1 between
the pool pop of line 129 and the line pop of line 131, and forever after
an error return between them; 0 elsewhere). -/
theorem exec_popCount (s : SysState) (tr : List Label) (s' : SysState)
    (hex : Exec s tr s') (i : Nat) :
    tr.count (Label.popPump i) + debt (s.cars i) =
      tr.count (Label.popLine i) + debt (s'.cars i) := by
  induction hex with
  | nil => rfl
  | cons s0 l s1 tr' s2 hs he ih =>
      by_cases ho : labelOwner l = some i
      · cases hs <;>
          (simp only [labelOwner, Option.some.injEq] at ho <;>
           try subst ho) <;>
          simp_all [List.count_cons, debt, lineDebt, Function.update] <;>
          omega
      · have hframe : s1.cars i = s0.cars i := step_cars_frame _ _ _ i hs ho
        have h1 : l ≠ Label.popPump i := by
          intro h; subst h; exact ho rfl
        have h2 : l ≠ Label.popLine i := by
          intro h; subst h; exact ho rfl
        rw [hframe] at ih
        simp only [List.count_cons]
        have e1 : (l == Label.popPump i) = false := by
          simp [beq_iff_eq]; exact h1
        have e2 : (l == Label.popLine i) = false := by
          simp [beq_iff_eq]; exact h2
        rw [e1, e2]
        simpa using ih

/-- C1: along every execution of the system, and for every car, the
number of line pops never exceeds the number of pool pops: within each
iteration the worker removes a pump from the pool (line 129) strictly
before removing its own entry from the line (line 131). -/
theorem C1_pool_pop_before_line_pop (M N : Nat) (tr : List Label) (s : SysState)
    (hex : Exec (init M N) tr s) (i : Nat) :
    tr.count (Label.popLine i) ≤ tr.count (Label.popPump i) := by
  have h := exec_popCount _ _ _ hex i
  have h0 : debt ((init M N).cars i) = 0 := by
    by_cases hi : 1 ≤ i ∧ i ≤ M <;> simp [init, debt, lineDebt, initCar, doneCar, hi]
  omega

/-- C1 witness: the demonstration run, in which car 1 pops the pump and
then pops the line exactly once each. -/
theorem C1_witness :
    demoTraceA.count (Label.popLine 1) ≤ demoTraceA.count (Label.popPump 1) :=
  C1_pool_pop_before_line_pop 2 1 demoTraceA demoStuck demoExecA 1

/-! ## Arithmetic helpers for the inductive invariant -/

/-- Appending one element adjusts the count by its multiplicity. -/
theorem count_append_one (l : List ℕ) (j i : ℕ) :
    (l ++ [j]).count i = l.count i + if i = j then 1 else 0 := by
  by_cases h : i = j
  · subst h; simp [List.count_append, List.count_cons]
  · simp [List.count_append, List.count_cons, Ne.symm h]
    exact h

/-- Appending at the tail keeps the head of a non-empty list. -/
theorem head?_append_left (l : List ℕ) (j : ℕ) (h : l ≠ []) :
    (l ++ [j]).head? = l.head? := by
  cases l with
  | nil => exact absurd rfl h
  | cons a t => rfl

/-- Incrementing one summand inside the sum increments the sum. -/
theorem sum_update_nat (t : Finset ℕ) (f : ℕ → ℕ) (p : ℕ) (hp : p ∈ t) (k : ℕ) :
    (∑ x in t, Function.update f p (f p + k) x) = (∑ x in t, f x) + k := by
  classical
  rw [Finset.sum_update_of_mem hp, Finset.sum_eq_sum_diff_singleton_add hp f]
  omega

/-- Effect on a sum of a pointwise function of an updated family. -/
theorem sum_comp_update (t : Finset ℕ) (f : ℕ → CarState) (F : CarState → ℕ)
    (j : ℕ) (hj : j ∈ t) (c : CarState) :
    (∑ i in t, F (Function.update f j c i)) + F (f j) =
      (∑ i in t, F (f i)) + F c := by
  classical
  have hfun : (fun i => F (Function.update f j c i)) =
      Function.update (fun i => F (f i)) j (F c) := by
    funext x
    by_cases hx : x = j
    · subst hx; rw [Function.update_same, Function.update_same]
    · rw [Function.update_noteq hx, Function.update_noteq hx]
  rw [hfun, Finset.sum_update_of_mem hj,
    Finset.sum_eq_sum_diff_singleton_add hj (fun i => F (f i))]
  omega

/-- An update with an unchanged counter leaves the counter sum
unchanged. -/
theorem carSum_update_eq (M : ℕ) (f : ℕ → CarState) (j : ℕ) (c : CarState)
    (hc : c.count = (f j).count) :
    (∑ i in Finset.Icc 1 M, ((Function.update f j c) i).count) =
      ∑ i in Finset.Icc 1 M, (f i).count := by
  apply Finset.sum_congr rfl
  intro x _
  by_cases hxj : x = j
  · subst hxj; rw [Function.update_same, hc]
  · rw [Function.update_noteq hxj]

/-- An update that neither enters nor leaves the incSelf location leaves
the in-service indicator sum unchanged. -/
theorem ind_sum_update_eq (M : ℕ) (f : ℕ → CarState) (j : ℕ) (c : CarState)
    (hc : (if c.loc = Loc.incSelf then (1:ℕ) else 0) =
      (if (f j).loc = Loc.incSelf then 1 else 0)) :
    (∑ i in Finset.Icc 1 M,
        if ((Function.update f j c) i).loc = Loc.incSelf then (1:ℕ) else 0) =
      ∑ i in Finset.Icc 1 M, if (f i).loc = Loc.incSelf then 1 else 0 := by
  apply Finset.sum_congr rfl
  intro x _
  by_cases hxj : x = j
  · subst hxj; rw [Function.update_same]; exact hc
  · rw [Function.update_noteq hxj]

/-- Transport of a location flag through a one-car update. -/
theorem memFlag_update (f : ℕ → CarState) (j : ℕ) (c : CarState) (g : Loc → Bool)
    (hg : g c.loc = g ((f j).loc)) :
    ∀ x, g ((Function.update f j c x).loc) = g ((f x).loc) := by
  intro x
  by_cases hx : x = j
  · subst hx; rw [Function.update_same, hg]
  · rw [Function.update_noteq hx]

/-- A car taking a step is a spawned car: its id lies in 1..M. -/
theorem valid_of_active (M N : ℕ) (s : SysState) (hinv : Inv M N s) (j : ℕ)
    (L : Loc) (hloc : (s.cars j).loc = L) (hLs : L ≠ Loc.stopped) :
    1 ≤ j ∧ j ≤ M := by
  by_contra hv
  have h := hinv.inert j hv
  rw [hloc] at h
  exact hLs h

/-- The invariant is preserved by any step that only moves one car's
control location, when the move changes none of the location flags, does
not enter the error location, enters popPump only with a non-empty pool,
and does not cross the incSelf location. -/
theorem inv_locstep (M N : ℕ) (s : SysState) (j : ℕ) (L L' : Loc)
    (hinv : Inv M N s)
    (hloc : (s.cars j).loc = L)
    (hLs : L ≠ Loc.stopped)
    (hIL : inLine L' = inLine L)
    (hIR : inRegion L' = inRegion L)
    (hH : holdsPump L' = holdsPump L)
    (hE : L' ≠ Loc.errorStopped)
    (hPop : L' = Loc.popPump → s.pumps ≠ [])
    (hI1 : L ≠ Loc.incSelf) (hI2 : L' ≠ Loc.incSelf) :
    Inv M N { s with cars := Function.update s.cars j { s.cars j with loc := L' } } := by
  have hvj : 1 ≤ j ∧ j ≤ M := valid_of_active M N s hinv j L hloc hLs
  have hmemIL := memFlag_update s.cars j { s.cars j with loc := L' } inLine
    (by dsimp only; rw [hIL, hloc])
  have hmemIR := memFlag_update s.cars j { s.cars j with loc := L' } inRegion
    (by dsimp only; rw [hIR, hloc])
  have hmemH := memFlag_update s.cars j { s.cars j with loc := L' } holdsPump
    (by dsimp only; rw [hH, hloc])
  refine ⟨?_, ?_, ?_, ?_, ?_, ?_, ?_, ?_, ?_⟩
  · intro i hi
    dsimp only
    by_cases hij : i = j
    · exact absurd hvj (hij ▸ hi)
    · rw [Function.update_noteq hij]
      exact hinv.inert i hi
  · intro i
    dsimp only
    by_cases hij : i = j
    · subst hij
      rw [Function.update_same]
      dsimp only
      rw [hIL, ← hloc]
      exact hinv.lineCount i
    · rw [Function.update_noteq hij]
      exact hinv.lineCount i
  · intro i k hi hk
    dsimp only at hi hk
    rw [hmemIR i] at hi
    rw [hmemIR k] at hk
    exact hinv.regionUnique i k hi hk
  · intro i hi
    dsimp only at hi ⊢
    rw [hmemIR i] at hi
    exact hinv.regionFront i hi
  · intro i hpp
    dsimp only at hpp ⊢
    by_cases hij : i = j
    · subst hij
      rw [Function.update_same] at hpp
      dsimp only at hpp
      exact hPop hpp
    · rw [Function.update_noteq hij] at hpp
      exact hinv.popPumpSafe i hpp
  · intro h hm
    exact hinv.pumpsValid h hm
  · intro i hh
    dsimp only at hh ⊢
    rw [hmemH i] at hh
    have hold := hinv.heldValid i hh
    by_cases hij : i = j
    · subst hij
      rw [Function.update_same]
      dsimp only
      exact hold
    · rw [Function.update_noteq hij]
      exact hold
  · intro i
    dsimp only
    by_cases hij : i = j
    · subst hij
      rw [Function.update_same]
      dsimp only
      exact hE
    · rw [Function.update_noteq hij]
      exact hinv.noError i
  · have hcons := hinv.conservation
    simp only [pumpSum, carSum, inService] at hcons ⊢
    dsimp only
    rw [carSum_update_eq M s.cars j
      { loc := L', myPump := (s.cars j).myPump, count := (s.cars j).count } rfl]
    rw [ind_sum_update_eq M s.cars j
      { loc := L', myPump := (s.cars j).myPump, count := (s.cars j).count }
      (by dsimp only; rw [hloc]; simp [hI1, hI2])]
    exact hcons

/-- The invariant is preserved by the two line-push steps (lines 120 and
135): the acting car, previously outside the line, appends its id at the
tail and moves to the loop head. -/
theorem inv_enqueue (M N : ℕ) (s : SysState) (j : ℕ) (L : Loc)
    (hinv : Inv M N s)
    (hloc : (s.cars j).loc = L)
    (hLs : L ≠ Loc.stopped)
    (hIL : inLine L = false)
    (hIR : inRegion L = false)
    (hI1 : L ≠ Loc.incSelf) :
    Inv M N { s with line := s.line ++ [j],
                     cars := Function.update s.cars j { s.cars j with loc := Loc.loopHead } } := by
  have hvj : 1 ≤ j ∧ j ≤ M := valid_of_active M N s hinv j L hloc hLs
  have hmemIR := memFlag_update s.cars j { s.cars j with loc := Loc.loopHead } inRegion
    (by dsimp only; rw [hloc, hIR]; rfl)
  refine ⟨?_, ?_, ?_, ?_, ?_, ?_, ?_, ?_, ?_⟩
  · intro i hi
    dsimp only
    by_cases hij : i = j
    · exact absurd hvj (hij ▸ hi)
    · rw [Function.update_noteq hij]
      exact hinv.inert i hi
  · intro i
    dsimp only
    rw [count_append_one]
    by_cases hij : i = j
    · subst hij
      rw [Function.update_same]
      dsimp only
      have hc := hinv.lineCount i
      rw [hloc] at hc
      simp only [hIL] at hc
      simp at hc
      simp [hc, hvj, inLine]
    · rw [Function.update_noteq hij]
      simp only [if_neg hij, Nat.add_zero]
      exact hinv.lineCount i
  · intro i k hi hk
    dsimp only at hi hk
    rw [hmemIR i] at hi
    rw [hmemIR k] at hk
    exact hinv.regionUnique i k hi hk
  · intro i hi
    dsimp only at hi ⊢
    rw [hmemIR i] at hi
    have hf := hinv.regionFront i hi
    have hne : s.line ≠ [] := by
      intro e
      rw [e] at hf
      cases hf
    rw [head?_append_left s.line j hne]
    exact hf
  · intro i hpp
    dsimp only at hpp ⊢
    by_cases hij : i = j
    · subst hij
      rw [Function.update_same] at hpp
      dsimp only at hpp
      cases hpp
    · rw [Function.update_noteq hij] at hpp
      exact hinv.popPumpSafe i hpp
  · intro h hm
    exact hinv.pumpsValid h hm
  · intro i hh
    dsimp only at hh ⊢
    by_cases hij : i = j
    · subst hij
      rw [Function.update_same] at hh
      dsimp only at hh
      cases hh
    · rw [Function.update_noteq hij] at hh
      rw [Function.update_noteq hij]
      exact hinv.heldValid i hh
  · intro i
    dsimp only
    by_cases hij : i = j
    · subst hij
      rw [Function.update_same]
      dsimp only
      intro e
      cases e
    · rw [Function.update_noteq hij]
      exact hinv.noError i
  · have hcons := hinv.conservation
    simp only [pumpSum, carSum, inService] at hcons ⊢
    dsimp only
    rw [carSum_update_eq M s.cars j
      { loc := Loc.loopHead, myPump := (s.cars j).myPump, count := (s.cars j).count } rfl]
    rw [ind_sum_update_eq M s.cars j
      { loc := Loc.loopHead, myPump := (s.cars j).myPump, count := (s.cars j).count }
      (by dsimp only; rw [hloc]; simp [hI1])]
    exact hcons

/-- Prepending one element adjusts the count by its multiplicity. -/
theorem count_cons_one (l : List ℕ) (x i : ℕ) :
    (x :: l).count i = l.count i + if i = x then 1 else 0 := by
  by_cases h : i = x
  · subst h; simp [List.count_cons]
  · simp [List.count_cons, Ne.symm h]
    exact h

/-- Specialisation of sum_comp_update to the in-service indicator. -/
theorem ind_sum_update (M : ℕ) (f : ℕ → CarState) (j : ℕ) (c : CarState)
    (hj : j ∈ Finset.Icc 1 M) :
    (∑ i in Finset.Icc 1 M,
        if (Function.update f j c i).loc = Loc.incSelf then (1:ℕ) else 0) +
      (if (f j).loc = Loc.incSelf then (1:ℕ) else 0) =
    (∑ i in Finset.Icc 1 M, if (f i).loc = Loc.incSelf then (1:ℕ) else 0) +
      (if c.loc = Loc.incSelf then (1:ℕ) else 0) :=
  sum_comp_update (Finset.Icc 1 M) f
    (fun st => if st.loc = Loc.incSelf then 1 else 0) j hj c

/-- The inductive invariant is preserved by every step of the system. -/
theorem inv_step (M N : ℕ) (s : SysState) (l : Label) (s' : SysState)
    (hinv : Inv M N s) (hstep : Step s l s') : Inv M N s' := by
  cases hstep with
  | enterLine j h =>
      exact inv_enqueue M N s j Loc.start hinv h (by simp) rfl rfl (by simp)
  | checkRunTrue j h hr =>
      exact inv_locstep M N s j Loc.loopHead Loc.checkFront hinv h (by simp)
        rfl rfl rfl (by simp) (by intro e; cases e) (by simp) (by simp)
  | checkRunFalse j h hr =>
      exact inv_locstep M N s j Loc.loopHead Loc.stopped hinv h (by simp)
        rfl rfl rfl (by simp) (by intro e; cases e) (by simp) (by simp)
  | checkFrontNo j h hf =>
      exact inv_locstep M N s j Loc.checkFront Loc.loopHead hinv h (by simp)
        rfl rfl rfl (by simp) (by intro e; cases e) (by simp) (by simp)
  | pollPumpsBusy j h he =>
      exact hinv
  | pollPumpsReady j h he =>
      exact inv_locstep M N s j Loc.pollPumps Loc.popPump hinv h (by simp)
        rfl rfl rfl (by simp) (fun _ => he) (by simp) (by simp)
  | checkNullOk j p h hn =>
      exact inv_locstep M N s j Loc.checkNull Loc.popLine hinv h (by simp)
        rfl rfl rfl (by simp) (by intro e; cases e) (by simp) (by simp)
  | checkNullNull j h hn =>
      obtain ⟨p, hp, hp1, hp2⟩ := hinv.heldValid j (by rw [h]; rfl)
      rw [hn] at hp
      cases hp
  | checkFrontYes j h hf =>
      have hvj : 1 ≤ j ∧ j ≤ M := valid_of_active M N s hinv j Loc.checkFront h (by simp)
      have hmemIL := memFlag_update s.cars j { s.cars j with loc := Loc.pollPumps } inLine
        (by dsimp only; rw [h]; rfl)
      have hnoreg : ∀ k, k ≠ j → inRegion (s.cars k).loc = false := by
        intro k hk
        cases hb : inRegion (s.cars k).loc with
        | false => rfl
        | true =>
            have hk2 := hinv.regionFront k hb
            rw [hf] at hk2
            have : j = k := Option.some.inj hk2
            exact absurd this.symm hk
      have hforce : ∀ x, inRegion ((Function.update s.cars j
          { s.cars j with loc := Loc.pollPumps } x).loc) = true → x = j := by
        intro x hx
        by_cases hxj : x = j
        · exact hxj
        · rw [Function.update_noteq hxj] at hx
          rw [hnoreg x hxj] at hx
          cases hx
      refine ⟨?_, ?_, ?_, ?_, ?_, ?_, ?_, ?_, ?_⟩
      · intro i hi
        dsimp only
        by_cases hij : i = j
        · exact absurd hvj (hij ▸ hi)
        · rw [Function.update_noteq hij]
          exact hinv.inert i hi
      · intro i
        dsimp only
        by_cases hij : i = j
        · subst hij
          rw [Function.update_same]
          dsimp only
          have hc := hinv.lineCount i
          rw [h] at hc
          exact hc
        · rw [Function.update_noteq hij]
          exact hinv.lineCount i
      · intro i k hi hk
        dsimp only at hi hk
        rw [hforce i hi, hforce k hk]
      · intro i hi
        dsimp only at hi ⊢
        rw [hforce i hi]
        exact hf
      · intro i hpp
        dsimp only at hpp ⊢
        by_cases hij : i = j
        · subst hij
          rw [Function.update_same] at hpp
          dsimp only at hpp
          cases hpp
        · rw [Function.update_noteq hij] at hpp
          exact hinv.popPumpSafe i hpp
      · intro h0 hm
        exact hinv.pumpsValid h0 hm
      · intro i hh
        dsimp only at hh ⊢
        by_cases hij : i = j
        · subst hij
          rw [Function.update_same] at hh
          dsimp only at hh
          cases hh
        · rw [Function.update_noteq hij] at hh
          rw [Function.update_noteq hij]
          exact hinv.heldValid i hh
      · intro i
        dsimp only
        by_cases hij : i = j
        · subst hij
          rw [Function.update_same]
          dsimp only
          intro e
          cases e
        · rw [Function.update_noteq hij]
          exact hinv.noError i
      · have hcons := hinv.conservation
        simp only [pumpSum, carSum, inService] at hcons ⊢
        dsimp only
        rw [carSum_update_eq M s.cars j
          { loc := Loc.pollPumps, myPump := (s.cars j).myPump, count := (s.cars j).count } rfl]
        rw [ind_sum_update_eq M s.cars j
          { loc := Loc.pollPumps, myPump := (s.cars j).myPump, count := (s.cars j).count }
          (by dsimp only; rw [h]; simp)]
        exact hcons
  | popPump j p rest h hp =>
      have hvj : 1 ≤ j ∧ j ≤ M := valid_of_active M N s hinv j Loc.popPump h (by simp)
      have hpmem : p ∈ s.pumps := by rw [hp]; exact List.mem_cons_self p rest
      obtain ⟨q, hq, hq1, hq2⟩ := hinv.pumpsValid p hpmem
      have hmemIL := memFlag_update s.cars j
        { loc := Loc.checkNull, myPump := p, count := (s.cars j).count } inLine
        (by dsimp only; rw [h]; rfl)
      have hmemIR := memFlag_update s.cars j
        { loc := Loc.checkNull, myPump := p, count := (s.cars j).count } inRegion
        (by dsimp only; rw [h]; rfl)
      refine ⟨?_, ?_, ?_, ?_, ?_, ?_, ?_, ?_, ?_⟩
      · intro i hi
        dsimp only
        by_cases hij : i = j
        · exact absurd hvj (hij ▸ hi)
        · rw [Function.update_noteq hij]
          exact hinv.inert i hi
      · intro i
        dsimp only
        by_cases hij : i = j
        · subst hij
          rw [Function.update_same]
          dsimp only
          have hc := hinv.lineCount i
          rw [h] at hc
          exact hc
        · rw [Function.update_noteq hij]
          exact hinv.lineCount i
      · intro i k hi hk
        dsimp only at hi hk
        rw [hmemIR i] at hi
        rw [hmemIR k] at hk
        exact hinv.regionUnique i k hi hk
      · intro i hi
        dsimp only at hi ⊢
        rw [hmemIR i] at hi
        exact hinv.regionFront i hi
      · intro i hpp
        dsimp only at hpp ⊢
        by_cases hij : i = j
        · subst hij
          rw [Function.update_same] at hpp
          dsimp only at hpp
          cases hpp
        · rw [Function.update_noteq hij] at hpp
          have : i = j := hinv.regionUnique i j (by rw [hpp]; rfl) (by rw [h]; rfl)
          exact absurd this hij
      · intro h0 hm
        exact hinv.pumpsValid h0 (by rw [hp]; exact List.mem_cons_of_mem p hm)
      · intro i hh
        dsimp only at hh ⊢
        by_cases hij : i = j
        · subst hij
          rw [Function.update_same]
          dsimp only
          exact ⟨q, hq, hq1, hq2⟩
        · rw [Function.update_noteq hij] at hh
          rw [Function.update_noteq hij]
          exact hinv.heldValid i hh
      · intro i
        dsimp only
        by_cases hij : i = j
        · subst hij
          rw [Function.update_same]
          dsimp only
          intro e
          cases e
        · rw [Function.update_noteq hij]
          exact hinv.noError i
      · have hcons := hinv.conservation
        simp only [pumpSum, carSum, inService] at hcons ⊢
        dsimp only
        rw [carSum_update_eq M s.cars j
          { loc := Loc.checkNull, myPump := p, count := (s.cars j).count } rfl]
        rw [ind_sum_update_eq M s.cars j
          { loc := Loc.checkNull, myPump := p, count := (s.cars j).count }
          (by dsimp only; rw [h]; simp)]
        exact hcons
  | popLine j x rest h hl =>
      have hvj : 1 ≤ j ∧ j ≤ M := valid_of_active M N s hinv j Loc.popLine h (by simp)
      have hfront := hinv.regionFront j (by rw [h]; rfl)
      have hxj : j = x := by
        rw [hl] at hfront
        exact (Option.some.inj hfront).symm
      subst hxj
      have hmemH := memFlag_update s.cars j { s.cars j with loc := Loc.service } holdsPump
        (by dsimp only; rw [h]; rfl)
      have hnoreg : ∀ k, k ≠ j → inRegion (s.cars k).loc = false := by
        intro k hk
        cases hb : inRegion (s.cars k).loc with
        | false => rfl
        | true =>
            have : k = j := hinv.regionUnique k j hb (by rw [h]; rfl)
            exact absurd this hk
      have hnone : ∀ y, inRegion ((Function.update s.cars j
          { s.cars j with loc := Loc.service } y).loc) = true → False := by
        intro y hy
        by_cases hyj : y = j
        · subst hyj
          rw [Function.update_same] at hy
          dsimp only at hy
          cases hy
        · rw [Function.update_noteq hyj] at hy
          rw [hnoreg y hyj] at hy
          cases hy
      refine ⟨?_, ?_, ?_, ?_, ?_, ?_, ?_, ?_, ?_⟩
      · intro i hi
        dsimp only
        by_cases hij : i = j
        · exact absurd hvj (hij ▸ hi)
        · rw [Function.update_noteq hij]
          exact hinv.inert i hi
      · intro i
        dsimp only
        have hc := hinv.lineCount i
        rw [hl, count_cons_one] at hc
        by_cases hij : i = j
        · subst hij
          rw [Function.update_same]
          dsimp only
          rw [h] at hc
          simp [inLine, hvj] at hc
          simp [inLine]
          omega
        · rw [Function.update_noteq hij]
          rw [if_neg hij, Nat.add_zero] at hc
          exact hc
      · intro i k hi hk
        dsimp only at hi hk
        exact absurd hi (by intro hi2; exact hnone i hi2)
      · intro i hi
        dsimp only at hi ⊢
        exact absurd hi (by intro hi2; exact hnone i hi2)
      · intro i hpp
        dsimp only at hpp ⊢
        by_cases hij : i = j
        · subst hij
          rw [Function.update_same] at hpp
          dsimp only at hpp
          cases hpp
        · rw [Function.update_noteq hij] at hpp
          exact hinv.popPumpSafe i hpp
      · intro h0 hm
        exact hinv.pumpsValid h0 hm
      · intro i hh
        dsimp only at hh ⊢
        rw [hmemH i] at hh
        have hold := hinv.heldValid i hh
        by_cases hij : i = j
        · subst hij
          rw [Function.update_same]
          dsimp only
          exact hold
        · rw [Function.update_noteq hij]
          exact hold
      · intro i
        dsimp only
        by_cases hij : i = j
        · subst hij
          rw [Function.update_same]
          dsimp only
          intro e
          cases e
        · rw [Function.update_noteq hij]
          exact hinv.noError i
      · have hcons := hinv.conservation
        simp only [pumpSum, carSum, inService] at hcons ⊢
        dsimp only
        rw [carSum_update_eq M s.cars j
          { loc := Loc.service, myPump := (s.cars j).myPump, count := (s.cars j).count } rfl]
        rw [ind_sum_update_eq M s.cars j
          { loc := Loc.service, myPump := (s.cars j).myPump, count := (s.cars j).count }
          (by dsimp only; rw [h]; simp)]
        exact hcons
  | service j p h hpm =>
      have hvj : 1 ≤ j ∧ j ≤ M := valid_of_active M N s hinv j Loc.service h (by simp)
      obtain ⟨q, hq, hq1, hq2⟩ := hinv.heldValid j (by rw [h]; rfl)
      have hpq : p = q := by
        rw [hpm] at hq
        exact Option.some.inj hq
      subst hpq
      have hmemIL := memFlag_update s.cars j { s.cars j with loc := Loc.incSelf } inLine
        (by dsimp only; rw [h]; rfl)
      have hmemIR := memFlag_update s.cars j { s.cars j with loc := Loc.incSelf } inRegion
        (by dsimp only; rw [h]; rfl)
      have hmemH := memFlag_update s.cars j { s.cars j with loc := Loc.incSelf } holdsPump
        (by dsimp only; rw [h]; rfl)
      refine ⟨?_, ?_, ?_, ?_, ?_, ?_, ?_, ?_, ?_⟩
      · intro i hi
        dsimp only
        by_cases hij : i = j
        · exact absurd hvj (hij ▸ hi)
        · rw [Function.update_noteq hij]
          exact hinv.inert i hi
      · intro i
        dsimp only
        by_cases hij : i = j
        · subst hij
          rw [Function.update_same]
          dsimp only
          have hc := hinv.lineCount i
          rw [h] at hc
          exact hc
        · rw [Function.update_noteq hij]
          exact hinv.lineCount i
      · intro i k hi hk
        dsimp only at hi hk
        rw [hmemIR i] at hi
        rw [hmemIR k] at hk
        exact hinv.regionUnique i k hi hk
      · intro i hi
        dsimp only at hi ⊢
        rw [hmemIR i] at hi
        exact hinv.regionFront i hi
      · intro i hpp
        dsimp only at hpp ⊢
        by_cases hij : i = j
        · subst hij
          rw [Function.update_same] at hpp
          dsimp only at hpp
          cases hpp
        · rw [Function.update_noteq hij] at hpp
          exact hinv.popPumpSafe i hpp
      · intro h0 hm
        exact hinv.pumpsValid h0 hm
      · intro i hh
        dsimp only at hh ⊢
        rw [hmemH i] at hh
        have hold := hinv.heldValid i hh
        by_cases hij : i = j
        · subst hij
          rw [Function.update_same]
          dsimp only
          exact hold
        · rw [Function.update_noteq hij]
          exact hold
      · intro i
        dsimp only
        by_cases hij : i = j
        · subst hij
          rw [Function.update_same]
          dsimp only
          intro e
          cases e
        · rw [Function.update_noteq hij]
          exact hinv.noError i
      · have hcons := hinv.conservation
        simp only [pumpSum, carSum, inService] at hcons ⊢
        dsimp only
        have hpmem : p ∈ Finset.Icc 1 N := Finset.mem_Icc.mpr ⟨hq1, hq2⟩
        rw [sum_update_nat (Finset.Icc 1 N) s.pumpCount p hpmem 1]
        rw [carSum_update_eq M s.cars j
          { loc := Loc.incSelf, myPump := (s.cars j).myPump, count := (s.cars j).count } rfl]
        have hind := ind_sum_update M s.cars j
          { loc := Loc.incSelf, myPump := (s.cars j).myPump, count := (s.cars j).count }
          (Finset.mem_Icc.mpr hvj)
        have e1 : (if (s.cars j).loc = Loc.incSelf then (1:ℕ) else 0) = 0 := by
          rw [h]; simp
        have e2 : (if (CarState.mk Loc.incSelf (s.cars j).myPump
            (s.cars j).count).loc = Loc.incSelf then (1:ℕ) else 0) = 1 := rfl
        rw [e1, e2] at hind
        omega
  | incCount j h =>
      have hvj : 1 ≤ j ∧ j ≤ M := valid_of_active M N s hinv j Loc.incSelf h (by simp)
      have hmemIL := memFlag_update s.cars j
        { s.cars j with loc := Loc.pushPump, count := (s.cars j).count + 1 } inLine
        (by dsimp only; rw [h]; rfl)
      have hmemIR := memFlag_update s.cars j
        { s.cars j with loc := Loc.pushPump, count := (s.cars j).count + 1 } inRegion
        (by dsimp only; rw [h]; rfl)
      have hmemH := memFlag_update s.cars j
        { s.cars j with loc := Loc.pushPump, count := (s.cars j).count + 1 } holdsPump
        (by dsimp only; rw [h]; rfl)
      refine ⟨?_, ?_, ?_, ?_, ?_, ?_, ?_, ?_, ?_⟩
      · intro i hi
        dsimp only
        by_cases hij : i = j
        · exact absurd hvj (hij ▸ hi)
        · rw [Function.update_noteq hij]
          exact hinv.inert i hi
      · intro i
        dsimp only
        by_cases hij : i = j
        · subst hij
          rw [Function.update_same]
          dsimp only
          have hc := hinv.lineCount i
          rw [h] at hc
          exact hc
        · rw [Function.update_noteq hij]
          exact hinv.lineCount i
      · intro i k hi hk
        dsimp only at hi hk
        rw [hmemIR i] at hi
        rw [hmemIR k] at hk
        exact hinv.regionUnique i k hi hk
      · intro i hi
        dsimp only at hi ⊢
        rw [hmemIR i] at hi
        exact hinv.regionFront i hi
      · intro i hpp
        dsimp only at hpp ⊢
        by_cases hij : i = j
        · subst hij
          rw [Function.update_same] at hpp
          dsimp only at hpp
          cases hpp
        · rw [Function.update_noteq hij] at hpp
          exact hinv.popPumpSafe i hpp
      · intro h0 hm
        exact hinv.pumpsValid h0 hm
      · intro i hh
        dsimp only at hh ⊢
        rw [hmemH i] at hh
        have hold := hinv.heldValid i hh
        by_cases hij : i = j
        · subst hij
          rw [Function.update_same]
          dsimp only
          exact hold
        · rw [Function.update_noteq hij]
          exact hold
      · intro i
        dsimp only
        by_cases hij : i = j
        · subst hij
          rw [Function.update_same]
          dsimp only
          intro e
          cases e
        · rw [Function.update_noteq hij]
          exact hinv.noError i
      · have hcons := hinv.conservation
        simp only [pumpSum, carSum, inService] at hcons ⊢
        dsimp only
        have hcar := sum_comp_update (Finset.Icc 1 M) s.cars CarState.count j
          (Finset.mem_Icc.mpr hvj)
          { loc := Loc.pushPump, myPump := (s.cars j).myPump, count := (s.cars j).count + 1 }
        have hind := ind_sum_update M s.cars j
          { loc := Loc.pushPump, myPump := (s.cars j).myPump, count := (s.cars j).count + 1 }
          (Finset.mem_Icc.mpr hvj)
        have e1 : (if (s.cars j).loc = Loc.incSelf then (1:ℕ) else 0) = 1 := by
          rw [h]; simp
        have e2 : (if (CarState.mk Loc.pushPump (s.cars j).myPump
            ((s.cars j).count + 1)).loc = Loc.incSelf then (1:ℕ) else 0) = 0 := rfl
        rw [e1, e2] at hind
        dsimp only at hcar
        omega
  | returnPump j h =>
      have hvj : 1 ≤ j ∧ j ≤ M := valid_of_active M N s hinv j Loc.pushPump h (by simp)
      obtain ⟨q, hq, hq1, hq2⟩ := hinv.heldValid j (by rw [h]; rfl)
      have hmemIL := memFlag_update s.cars j { s.cars j with loc := Loc.pushLine } inLine
        (by dsimp only; rw [h]; rfl)
      have hmemIR := memFlag_update s.cars j { s.cars j with loc := Loc.pushLine } inRegion
        (by dsimp only; rw [h]; rfl)
      refine ⟨?_, ?_, ?_, ?_, ?_, ?_, ?_, ?_, ?_⟩
      · intro i hi
        dsimp only
        by_cases hij : i = j
        · exact absurd hvj (hij ▸ hi)
        · rw [Function.update_noteq hij]
          exact hinv.inert i hi
      · intro i
        dsimp only
        by_cases hij : i = j
        · subst hij
          rw [Function.update_same]
          dsimp only
          have hc := hinv.lineCount i
          rw [h] at hc
          exact hc
        · rw [Function.update_noteq hij]
          exact hinv.lineCount i
      · intro i k hi hk
        dsimp only at hi hk
        rw [hmemIR i] at hi
        rw [hmemIR k] at hk
        exact hinv.regionUnique i k hi hk
      · intro i hi
        dsimp only at hi ⊢
        rw [hmemIR i] at hi
        exact hinv.regionFront i hi
      · intro i hpp
        dsimp only
        simp
      · intro h0 hm
        dsimp only at hm
        rcases List.mem_append.mp hm with hold | hnew
        · exact hinv.pumpsValid h0 hold
        · have : h0 = (s.cars j).myPump := List.mem_singleton.mp hnew
          rw [this, hq]
          exact ⟨q, rfl, hq1, hq2⟩
      · intro i hh
        dsimp only at hh ⊢
        by_cases hij : i = j
        · subst hij
          rw [Function.update_same] at hh
          dsimp only at hh
          cases hh
        · rw [Function.update_noteq hij] at hh
          rw [Function.update_noteq hij]
          exact hinv.heldValid i hh
      · intro i
        dsimp only
        by_cases hij : i = j
        · subst hij
          rw [Function.update_same]
          dsimp only
          intro e
          cases e
        · rw [Function.update_noteq hij]
          exact hinv.noError i
      · have hcons := hinv.conservation
        simp only [pumpSum, carSum, inService] at hcons ⊢
        dsimp only
        rw [carSum_update_eq M s.cars j
          { loc := Loc.pushLine, myPump := (s.cars j).myPump, count := (s.cars j).count } rfl]
        rw [ind_sum_update_eq M s.cars j
          { loc := Loc.pushLine, myPump := (s.cars j).myPump, count := (s.cars j).count }
          (by dsimp only; rw [h]; simp)]
        exact hcons
  | reenterLine j h =>
      exact inv_enqueue M N s j Loc.pushLine hinv h (by simp) rfl rfl (by simp)
  | stopFlag hr =>
      exact ⟨hinv.inert, hinv.lineCount, hinv.regionUnique, hinv.regionFront,
        hinv.popPumpSafe, hinv.pumpsValid, hinv.heldValid, hinv.noError,
        hinv.conservation⟩

/-- The invariant holds in the initial state. -/
theorem inv_init (M N : ℕ) : Inv M N (init M N) := by
  have hloc : ∀ i, ((init M N).cars i).loc = Loc.start ∨
      ((init M N).cars i).loc = Loc.stopped := by
    intro i
    by_cases hi : 1 ≤ i ∧ i ≤ M
    · left; simp [init, hi, initCar]
    · right; simp [init, hi, doneCar]
  refine ⟨?_, ?_, ?_, ?_, ?_, ?_, ?_, ?_, ?_⟩
  · intro i hi
    simp [init, hi, doneCar]
  · intro i
    by_cases hi : 1 ≤ i ∧ i ≤ M <;> simp [init, hi, initCar, doneCar, inLine]
  · intro i k hi hk
    rcases hloc i with h1 | h1 <;> rw [h1] at hi <;> cases hi
  · intro i hi
    rcases hloc i with h1 | h1 <;> rw [h1] at hi <;> cases hi
  · intro i h
    rcases hloc i with h1 | h1 <;> rw [h] at h1 <;> cases h1
  · intro h hm
    simp [init] at hm
    obtain ⟨k, hk, rfl⟩ := hm
    exact ⟨k + 1, rfl, by omega, by omega⟩
  · intro i hi
    rcases hloc i with h1 | h1 <;> rw [h1] at hi <;> cases hi
  · intro i
    rcases hloc i with h1 | h1 <;> rw [h1] <;> simp
  · have hp : pumpSum N (init M N) = 0 := by
      unfold pumpSum
      apply Finset.sum_eq_zero
      intro x _
      rfl
    have hc : carSum M (init M N) = 0 := by
      unfold carSum
      apply Finset.sum_eq_zero
      intro i _
      by_cases hi : 1 ≤ i ∧ i ≤ M <;> simp [init, hi, initCar, doneCar]
    have hs : inService M (init M N) = 0 := by
      unfold inService
      apply Finset.sum_eq_zero
      intro i _
      rcases hloc i with h1 | h1 <;> rw [h1] <;> simp
    rw [hp, hc, hs]

/-- The invariant propagates along executions. -/
theorem exec_inv (M N : ℕ) (s0 : SysState) (tr : List Label) (s : SysState)
    (hex : Exec s0 tr s) : Inv M N s0 → Inv M N s := by
  induction hex with
  | nil => exact fun h => h
  | cons a l b tr' c hs he ih => exact fun h0 => ih (inv_step M N a l b h0 hs)

/-- Every reachable state satisfies the invariant. -/
theorem reachable_inv (M N : ℕ) (s : SysState) (h : Reachable M N s) : Inv M N s := by
  obtain ⟨tr, hex⟩ := h
  exact exec_inv M N _ tr s hex (inv_init M N)

/-! ## C6: no duplicate identities in the WaitLine -/

/-- C6: in every reachable state each car id occurs in the line at most
once; more precisely it occurs exactly once while the car is between its
line push (line 120 or 135) and its line pop (line 131) or has stopped,
and zero times while it services a pump (the id is removed before the
service starts and re-added only after it finishes). -/
theorem C6_no_duplicates (M N : ℕ) (s : SysState) (h : Reachable M N s) (i : ℕ) :
    s.line.count i ≤ 1 ∧
    s.line.count i = (if 1 ≤ i ∧ i ≤ M ∧ inLine (s.cars i).loc then 1 else 0) := by
  have hinv := reachable_inv M N s h
  have hc := hinv.lineCount i
  constructor
  · rw [hc]
    split <;> omega
  · exact hc

/-- C6 witness: the run reaching demoStuck. -/
theorem C6_witness :
    demoStuck.line.count 1 ≤ 1 ∧
    demoStuck.line.count 1 =
      (if 1 ≤ 1 ∧ 1 ≤ 2 ∧ inLine (demoStuck.cars 1).loc then 1 else 0) :=
  C6_no_duplicates 2 1 demoStuck ⟨demoTraceA, demoExecA⟩ 1

/-! ## C4: every pop happens on a non-empty queue -/

/-- Every pop performed by the controller's drain loop finds a non-empty
queue: each iteration pops only after its !empty() guard succeeded, so
the undefined empty-pop branch is never taken, whatever the pool holds
at teardown. -/
theorem drainPumps_safe (q : List Handle) : drainPumps q = true := by
  induction q with
  | nil =>
      unfold drainPumps
      rfl
  | cons a t ih =>
      unfold drainPumps
      simp [MyQueue.emptyQ, MyQueue.pop]
      exact ih

/-- C4: pop is well-defined exactly on non-empty queues, and every pop
the program performs is guarded: a car about to execute pumps.pop()
(line 129) sees a non-empty pool, because its own poll of line 127
succeeded and, the line front being unique, nobody else popped the pool
in between; a car about to execute line.pop() (line 131) sees a
non-empty line, its own id still being at the front; and the
controller's drain loop (main lines 172-175) pops only under its
!empty() guard, so it never reaches the undefined branch either. -/
theorem C4_pop_safe (M N : ℕ) (s : SysState) (h : Reachable M N s) (i : ℕ) :
    (∀ q : List Handle, (MyQueue.pop q).isSome = true ↔ q ≠ []) ∧
    ((s.cars i).loc = Loc.popPump → s.pumps ≠ []) ∧
    ((s.cars i).loc = Loc.popLine → s.line ≠ []) ∧
    (∀ q : List Handle, drainPumps q = true) := by
  have hinv := reachable_inv M N s h
  refine ⟨?_, hinv.popPumpSafe i, ?_, fun q => drainPumps_safe q⟩
  · intro q
    cases q <;> simp [MyQueue.pop]
  · intro hl
    have hf := hinv.regionFront i (by rw [hl]; rfl)
    intro e
    rw [e] at hf
    cases hf

/-- C4 witness: the run reaching demoStuck. -/
theorem C4_witness :
    (∀ q : List Handle, (MyQueue.pop q).isSome = true ↔ q ≠ []) ∧
    ((demoStuck.cars 1).loc = Loc.popPump → demoStuck.pumps ≠ []) ∧
    ((demoStuck.cars 1).loc = Loc.popLine → demoStuck.line ≠ []) ∧
    (∀ q : List Handle, drainPumps q = true) :=
  C4_pop_safe 2 1 demoStuck ⟨demoTraceA, demoExecA⟩ 1

/-! ## C10: the nullptr branch is unreachable -/

/-- C10: in every reachable state the pool holds only non-null handles
(main pushes the N pumps created at lines 152-154 and cars push back the
handle they popped), a car at the nullptr check of line 130 holds a
non-null handle, and no car ever reaches the error return of line 130. -/
theorem C10_null_branch_unreachable (M N : ℕ) (s : SysState) (h : Reachable M N s) :
    (∀ h0 ∈ s.pumps, h0 ≠ none) ∧
    (∀ i, (s.cars i).loc = Loc.checkNull → (s.cars i).myPump ≠ none) ∧
    (∀ i, (s.cars i).loc ≠ Loc.errorStopped) := by
  have hinv := reachable_inv M N s h
  refine ⟨?_, ?_, hinv.noError⟩
  · intro h0 hm
    obtain ⟨p, hp, _, _⟩ := hinv.pumpsValid h0 hm
    rw [hp]
    simp
  · intro i hl
    obtain ⟨p, hp, _, _⟩ := hinv.heldValid i (by rw [hl]; rfl)
    rw [hp]
    simp

/-- C10 witness: the run reaching demoStuck. -/
theorem C10_witness :
    (∀ h0 ∈ demoStuck.pumps, h0 ≠ none) ∧
    (∀ i, (demoStuck.cars i).loc = Loc.checkNull → (demoStuck.cars i).myPump ≠ none) ∧
    (∀ i, (demoStuck.cars i).loc ≠ Loc.errorStopped) :=
  C10_null_branch_unreachable 2 1 demoStuck ⟨demoTraceA, demoExecA⟩

/-! ## C2: conservation of work -/

/-- C2: each completed service increments exactly one pump counter
(inside PumpGas, line 106) and then exactly one car counter (line 133);
in every reachable state the pump counters' sum exceeds the car
counters' sum by exactly the number of cars between the two increments,
so once all workers have stopped the two sums are equal. -/
theorem C2_conservation (M N : ℕ) (s : SysState) (h : Reachable M N s)
    (hstop : AllStopped M s) : pumpSum N s = carSum M s := by
  have hinv := reachable_inv M N s h
  have hz : inService M s = 0 := by
    unfold inService
    apply Finset.sum_eq_zero
    intro i hi
    rw [Finset.mem_Icc] at hi
    rcases hstop i hi.1 hi.2 with h1 | h1 <;> rw [h1] <;> simp
  have hcons := hinv.conservation
  omega

/-- C2 witness: the stopping run, all workers stopped, both sums zero. -/
theorem C2_witness : pumpSum 1 demoStopped = carSum 1 demoStopped :=
  C2_conservation 1 1 demoStopped ⟨demoTraceB, demoExecB⟩ (by
    intro i h1 h2
    have hi : i = 1 := by omega
    subst hi
    left
    rfl)

end GasStation
